import Mathlib

/-!
Shallow embedding of `src/BuddhaBleClient.ts` (BLE client for the BUDDHA
treatment device): the base64 transport codec, the fixed-width integer
codec, the step-list record codec, and the protocol facade operations.
Machine integers are modelled as `Nat`/`Int`; JavaScript bitwise
operations (`& 0xFF`, `>> 8`, `|`) are modelled by division/modulus,
which agree with the ToInt32-based JS semantics on the ranges at which
the source applies them (noted at each definition).  Thrown `Error`
values are modelled as `Except` with an error taxonomy classified by the
thrown message.
-/

namespace BuddhaBle

/-- A treatment step, mirroring the TypeScript
`Step = { amplitudePct: number; durationMs: number }` with integer
fields. -/
structure Step where
  amplitudePct : Int
  durationMs : Int
deriving DecidableEq, Repr

/-- Error taxonomy.  The source throws plain `Error` values; each is
classified here by its message (validation messages, the malformed
payload message, the not-connected message, the scan-timeout message, transport
errors). -/
inductive BleError where
  | notConnected
  | scanTimeout
  | validationError (reason : String)
  | protocolError (reason : String)
  | deviceError (reason : String)
deriving DecidableEq, Repr

/-! ### Base64 transport codec

The source uses the Node `Buffer` base64 conversions
(`b64FromBytes` / `bytesFromB64`; the
`Platform.select` branches of `b64FromBytes` are all identical).
Standard base64 with `=` padding is modelled here; the decoder skips
characters outside the alphabet, as the Node decoder does. -/

def b64Alphabet : List Char :=
  "ABCDEFGHIJKLMNOPQRSTUVWXYZabcdefghijklmnopqrstuvwxyz0123456789+/".toList

def b64Char (v : Nat) : Char := b64Alphabet.getD v '='

def b64Val (c : Char) : Option Nat :=
  let i := b64Alphabet.indexOf c
  if i < 64 then some i else none

/-- Base64 encoding of a byte list (`b64FromBytes` in the source). -/
def b64FromBytes : List Nat → List Char
  | [] => []
  | [a] => [b64Char (a / 4), b64Char (a % 4 * 16), '=', '=']
  | [a, b] =>
      [b64Char (a / 4), b64Char (a % 4 * 16 + b / 16), b64Char (b % 16 * 4), '=']
  | a :: b :: c :: rest =>
      b64Char (a / 4) :: b64Char (a % 4 * 16 + b / 16) ::
        b64Char (b % 16 * 4 + c / 64) :: b64Char (c % 64) :: b64FromBytes rest

/-- Reassemble bytes from a stream of 6-bit values (4 sextets give 3
bytes; a trailing pair gives 1 byte, a trailing triple 2 bytes). -/
def sextetsToBytes : List Nat → List Nat
  | s1 :: s2 :: s3 :: s4 :: rest =>
      (s1 * 4 + s2 / 16) :: (s2 % 16 * 16 + s3 / 4) :: (s3 % 4 * 64 + s4) ::
        sextetsToBytes rest
  | [s1, s2] => [s1 * 4 + s2 / 16]
  | [s1, s2, s3] => [s1 * 4 + s2 / 16, s2 % 16 * 16 + s3 / 4]
  | _ => []

/-- Base64 decoding to a byte list (`bytesFromB64` in the source). -/
def bytesFromB64 (cs : List Char) : List Nat :=
  sextetsToBytes (cs.filterMap b64Val)

theorem b64Val_b64Char : ∀ v : Nat, v < 64 → b64Val (b64Char v) = some v := by
  decide

theorem b64Val_pad : b64Val '=' = none := by decide

theorem bytesFromB64_b64FromBytes :
    ∀ bs : List Nat, (∀ x ∈ bs, x < 256) → bytesFromB64 (b64FromBytes bs) = bs := by
  have key : ∀ n : Nat, ∀ bs : List Nat, bs.length ≤ n → (∀ x ∈ bs, x < 256) →
      bytesFromB64 (b64FromBytes bs) = bs := by
    intro n
    induction n with
    | zero =>
      intro bs hlen _
      have : bs = [] := List.length_eq_zero.mp (Nat.le_zero.mp hlen)
      subst this
      rfl
    | succ n ih =>
      intro bs hlen hlt
      rcases bs with _ | ⟨a, _ | ⟨b, _ | ⟨c, rest⟩⟩⟩
      · rfl
      · have ha : a < 256 := hlt a (by simp)
        have e1 := b64Val_b64Char (a / 4) (by omega)
        have e2 := b64Val_b64Char (a % 4 * 16) (by omega)
        simp only [b64FromBytes, bytesFromB64, List.filterMap_cons, e1, e2,
          b64Val_pad, List.filterMap_nil, sextetsToBytes, List.cons.injEq, and_true]
        omega
      · have ha : a < 256 := hlt a (by simp)
        have hb : b < 256 := hlt b (by simp)
        have e1 := b64Val_b64Char (a / 4) (by omega)
        have e2 := b64Val_b64Char (a % 4 * 16 + b / 16) (by omega)
        have e3 := b64Val_b64Char (b % 16 * 4) (by omega)
        simp only [b64FromBytes, bytesFromB64, List.filterMap_cons, e1, e2, e3,
          b64Val_pad, List.filterMap_nil, sextetsToBytes, List.cons.injEq, and_true]
        omega
      · have ha : a < 256 := hlt a (by simp)
        have hb : b < 256 := hlt b (by simp)
        have hc : c < 256 := hlt c (by simp)
        have e1 := b64Val_b64Char (a / 4) (by omega)
        have e2 := b64Val_b64Char (a % 4 * 16 + b / 16) (by omega)
        have e3 := b64Val_b64Char (b % 16 * 4 + c / 64) (by omega)
        have e4 := b64Val_b64Char (c % 64) (by omega)
        have htail : bytesFromB64 (b64FromBytes rest) = rest := by
          refine ih rest ?_ ?_
          · simp at hlen; omega
          · intro x hx; exact hlt x (by simp [hx])
        simp only [b64FromBytes, bytesFromB64, List.filterMap_cons, e1, e2, e3, e4,
          sextetsToBytes, List.cons.injEq]
        exact ⟨by omega, by omega, by omega, by simpa [bytesFromB64] using htail⟩
  intro bs h
  exact key bs.length bs (Nat.le_refl _) h

/-! ### Fixed-width integer codec

The readers take the transport-decoded byte list (`bytesFromB64(c.value!)`
in the source; the facade operations below apply that decoding).  The
bytes of a characteristic value come from a `Uint8Array`, so each is
< 256; on that range `d[0] | (d[1] << 8)` equals `d[0] + 256 * d[1]`,
`v & 0x8000 !== 0` equals `v / 0x8000 % 2 = 1`, and for the writers on
a validated/ToInt32-reduced value `v & 0xFF` equals `v % 256` and
`(v >> 8) & 0xFF` equals `v / 256 % 256`. -/

def readU8 (d : List Nat) : Nat := d.getD 0 0

def readU16 (d : List Nat) : Nat := d.getD 0 0 + 256 * d.getD 1 0

def readI16 (d : List Nat) : Int :=
  let v := d.getD 0 0 + 256 * d.getD 1 0
  if v / 32768 % 2 = 1 then (v : Int) - 65536 else (v : Int)

/-- JavaScript `ToInt32` of a nonnegative integer argument (applied by the
bitwise operators in `writeU8`/`writeU16`). -/
def toInt32 (v : Nat) : Int :=
  if v % 4294967296 < 2147483648 then ((v % 4294967296 : Nat) : Int)
  else ((v % 4294967296 : Nat) : Int) - 4294967296

/-- `writeU8` in the source: the single byte `v & 0xFF`. -/
def writeU8 (v : Nat) : List Nat := [(toInt32 v % 256).toNat]

/-- `writeU16` in the source: bytes `v & 0xFF` and `(v >> 8) & 0xFF`. -/
def writeU16 (v : Nat) : List Nat :=
  [(toInt32 v % 256).toNat, (toInt32 v / 256 % 256).toNat]

theorem toInt32_emod_256 (v : Nat) : (toInt32 v % 256).toNat = v % 256 := by
  unfold toInt32
  split
  · rw [show ((v % 4294967296 : Nat) : Int) % 256 = ((v % 4294967296 % 256 : Nat) : Int) by
      push_cast; rfl]
    rw [Nat.mod_mod_of_dvd v (by norm_num)]
    exact Int.toNat_natCast _
  · rw [Int.sub_emod, show ((4294967296 : Int) % 256) = 0 by norm_num, sub_zero,
      Int.emod_emod_of_dvd _ (by norm_num)]
    rw [show ((v % 4294967296 : Nat) : Int) % 256 = ((v % 4294967296 % 256 : Nat) : Int) by
      push_cast; rfl]
    rw [Nat.mod_mod_of_dvd v (by norm_num)]
    exact Int.toNat_natCast _

theorem toInt32_shr8_emod_256 (v : Nat) :
    (toInt32 v / 256 % 256).toNat = v % 65536 / 256 := by
  have hnat : ∀ r : Nat, r / 256 % 256 = r % 65536 / 256 := by
    intro r; omega
  unfold toInt32
  split
  · rw [show ((v % 4294967296 : Nat) : Int) / 256 = ((v % 4294967296 / 256 : Nat) : Int) by
      push_cast [Int.ofNat_div]; rfl]
    rw [show ((v % 4294967296 / 256 : Nat) : Int) % 256
        = ((v % 4294967296 / 256 % 256 : Nat) : Int) by push_cast; rfl]
    rw [Int.toNat_natCast, hnat, Nat.mod_mod_of_dvd v (by norm_num)]
  · rw [show ((v % 4294967296 : Nat) : Int) - 4294967296
        = ((v % 4294967296 : Nat) : Int) + (-16777216) * 256 by ring]
    rw [Int.add_mul_ediv_right _ _ (by norm_num)]
    rw [show ((v % 4294967296 : Nat) : Int) / 256 = ((v % 4294967296 / 256 : Nat) : Int) by
      push_cast [Int.ofNat_div]; rfl]
    rw [Int.add_emod, show ((-16777216 : Int) % 256) = 0 by norm_num, add_zero,
      Int.emod_emod_of_dvd _ (by norm_num)]
    rw [show ((v % 4294967296 / 256 : Nat) : Int) % 256
        = ((v % 4294967296 / 256 % 256 : Nat) : Int) by push_cast; rfl]
    rw [Int.toNat_natCast, hnat, Nat.mod_mod_of_dvd v (by norm_num)]

theorem writeU8_eq (v : Nat) : writeU8 v = [v % 256] := by
  simp [writeU8, toInt32_emod_256]

theorem writeU16_eq (v : Nat) : writeU16 v = [v % 65536 % 256, v % 65536 / 256] := by
  simp only [writeU16, toInt32_emod_256, toInt32_shr8_emod_256]
  have : v % 65536 % 256 = v % 256 := Nat.mod_mod_of_dvd v (by norm_num)
  rw [this]

/-! ### Step-list record codec

`packStepsToB64` / `unpackStepsFromB64` in the source: 3 bytes per step,
`[amp & 0xFF, dur & 0xFF, (dur >> 8) & 0xFF]`, then base64.  The bitwise
operations run only on values already validated to `0..100` resp.
`1..65535`, where they equal modulus/division by 256. -/

/-- The step bounds checked by `packStepsToB64` (the `Number.isInteger`
tests of the source are vacuous over an integer embedding). -/
def stepOK (s : Step) : Prop :=
  0 ≤ s.amplitudePct ∧ s.amplitudePct ≤ 100 ∧ 1 ≤ s.durationMs ∧ s.durationMs ≤ 65535

instance (s : Step) : Decidable (stepOK s) := by
  unfold stepOK
  infer_instance

def ampByte (s : Step) : Nat := (s.amplitudePct % 256).toNat

def durLoByte (s : Step) : Nat := (s.durationMs % 256).toNat

def durHiByte (s : Step) : Nat := (s.durationMs / 256 % 256).toNat

/-- The validating byte-building loop of `packStepsToB64`.  The source
pushes bytes into an array as it validates each step in order; a thrown
validation error discards the partial array, so the observable result is
the first validation failure, or all the bytes. -/
def packBytes : List Step → Except BleError (List Nat)
  | [] => .ok []
  | s :: rest =>
    if s.amplitudePct < 0 ∨ 100 < s.amplitudePct then
      .error (.validationError "amplitudePct must be 0-100")
    else if s.durationMs < 1 ∨ 65535 < s.durationMs then
      .error (.validationError "durationMs must be 1-65535 ms")
    else
      match packBytes rest with
      | .error e => .error e
      | .ok bs => .ok (ampByte s :: durLoByte s :: durHiByte s :: bs)

/-- `packStepsToB64` in the source (the `Array.isArray` test is a
TypeScript-level guard with no counterpart over `List`). -/
def packStepsToB64 (steps : List Step) : Except BleError (List Char) :=
  if steps.isEmpty then .error (.validationError "steps required")
  else
    match packBytes steps with
    | .error e => .error e
    | .ok bs => .ok (b64FromBytes bs)

/-- The bytes produced for a valid step list: three per step. -/
def stepBytes (steps : List Step) : List Nat :=
  steps.foldr (fun s acc => ampByte s :: durLoByte s :: durHiByte s :: acc) []

/-- The decoding loop of `unpackStepsFromB64`: each 3-byte group
`[amp, lo, hi]` becomes `{ amplitudePct = amp, durationMs = lo | (hi << 8) }`
(`lo + 256 * hi` for bytes). -/
def unpackBytes : List Nat → List Step
  | a :: b :: c :: rest => ⟨(a : Int), ((b + 256 * c : Nat) : Int)⟩ :: unpackBytes rest
  | _ => []

/-- `unpackStepsFromB64` in the source.  `none` models a `null`/`undefined`
payload; the `if (!b64) return []` branch also catches the empty string. -/
def unpackStepsFromB64 : Option (List Char) → Except BleError (List Step)
  | none => .ok []
  | some b64 =>
    if b64.isEmpty then .ok []
    else if (bytesFromB64 b64).length % 3 = 0 then .ok (unpackBytes (bytesFromB64 b64))
    else .error (.protocolError "Malformed step list payload (not multiple of 3)")

theorem packBytes_ok (steps : List Step) (h : ∀ s ∈ steps, stepOK s) :
    packBytes steps = .ok (stepBytes steps) := by
  induction steps with
  | nil => rfl
  | cons s rest ih =>
    have hs : stepOK s := h s (by simp)
    obtain ⟨h1, h2, h3, h4⟩ := hs
    have htail : packBytes rest = .ok (stepBytes rest) :=
      ih (fun t ht => h t (by simp [ht]))
    simp only [packBytes, htail]
    rw [if_neg (by omega), if_neg (by omega)]
    simp [stepBytes]

theorem stepBytes_lt_256 (steps : List Step) (h : ∀ s ∈ steps, stepOK s) :
    ∀ x ∈ stepBytes steps, x < 256 := by
  induction steps with
  | nil => simp [stepBytes]
  | cons s rest ih =>
    obtain ⟨h1, h2, h3, h4⟩ := h s (by simp)
    intro x hx
    simp only [stepBytes, List.foldr_cons, List.mem_cons] at hx
    rcases hx with hx | hx | hx | hx
    · subst hx; unfold ampByte; omega
    · subst hx; unfold durLoByte; omega
    · subst hx; unfold durHiByte; omega
    · exact ih (fun t ht => h t (by simp [ht])) x (by simpa [stepBytes] using hx)

theorem stepBytes_length (steps : List Step) :
    (stepBytes steps).length = 3 * steps.length := by
  induction steps with
  | nil => rfl
  | cons s rest ih =>
    simp only [stepBytes, List.foldr_cons, List.length_cons] at ih ⊢
    omega

theorem unpackBytes_stepBytes (steps : List Step) (h : ∀ s ∈ steps, stepOK s) :
    unpackBytes (stepBytes steps) = steps := by
  induction steps with
  | nil => rfl
  | cons s rest ih =>
    obtain ⟨h1, h2, h3, h4⟩ := h s (by simp)
    have htail : unpackBytes (stepBytes rest) = rest :=
      ih (fun t ht => h t (by simp [ht]))
    simp only [stepBytes, List.foldr_cons, unpackBytes, List.cons.injEq]
    refine ⟨?_, by simpa [stepBytes] using htail⟩
    have hamp : ((ampByte s : Nat) : Int) = s.amplitudePct := by
      unfold ampByte; omega
    have hdur : ((durLoByte s + 256 * durHiByte s : Nat) : Int) = s.durationMs := by
      unfold durLoByte durHiByte
      push_cast
      omega
    rw [hamp, hdur]

theorem packBytes_error_of_invalid :
    ∀ steps : List Step, (∃ s ∈ steps, ¬ stepOK s) →
      ∃ msg, packBytes steps = .error (.validationError msg) := by
  intro steps
  induction steps with
  | nil => rintro ⟨t, ht, _⟩; simp at ht
  | cons s rest ih =>
    rintro ⟨t, ht, hbad⟩
    by_cases hA : s.amplitudePct < 0 ∨ 100 < s.amplitudePct
    · exact ⟨"amplitudePct must be 0-100", by simp only [packBytes, if_pos hA]⟩
    · by_cases hD : s.durationMs < 1 ∨ 65535 < s.durationMs
      · exact ⟨"durationMs must be 1-65535 ms",
          by simp only [packBytes, if_neg hA, if_pos hD]⟩
      · have hs : stepOK s := by unfold stepOK; omega
        have htr : t ∈ rest := by
          rcases List.mem_cons.mp ht with h | h
          · exact absurd (h ▸ hs) hbad
          · exact h
        obtain ⟨msg, hmsg⟩ := ih ⟨t, htr, hbad⟩
        refine ⟨msg, ?_⟩
        simp only [packBytes, if_neg hA, if_neg hD, hmsg]

theorem packBytes_error_iff (steps : List Step) :
    (∃ msg, packBytes steps = .error (.validationError msg)) ↔
      ∃ s ∈ steps, ¬ stepOK s := by
  constructor
  · rintro ⟨msg, hmsg⟩
    by_contra hno
    push_neg at hno
    rw [packBytes_ok steps hno] at hmsg
    exact Except.noConfusion hmsg
  · exact packBytes_error_of_invalid steps

/-- The decoded step list as the spec describes it: the `i`-th step is
built from bytes `3i`, `3i+1`, `3i+2`. -/
def decodedSteps (d : List Nat) : List Step :=
  (List.range (d.length / 3)).map fun i =>
    ⟨((d.getD (3 * i) 0 : Nat) : Int),
     ((d.getD (3 * i + 1) 0 + 256 * d.getD (3 * i + 2) 0 : Nat) : Int)⟩

theorem getD_add3 {α : Type} (x y z d : α) (l : List α) (k : Nat) :
    (x :: y :: z :: l).getD (k + 3) d = l.getD k d := by
  rw [show k + 3 = k + 2 + 1 by ring, List.getD_cons_succ,
    show k + 2 = k + 1 + 1 by ring, List.getD_cons_succ,
    List.getD_cons_succ]

theorem unpackBytes_eq_decodedSteps :
    ∀ d : List Nat, d.length % 3 = 0 → unpackBytes d = decodedSteps d := by
  have key : ∀ n : Nat, ∀ d : List Nat, d.length ≤ n → d.length % 3 = 0 →
      unpackBytes d = decodedSteps d := by
    intro n
    induction n with
    | zero =>
      intro d hlen _
      have : d = [] := List.length_eq_zero.mp (Nat.le_zero.mp hlen)
      subst this
      rfl
    | succ n ih =>
      intro d hlen hmod
      rcases d with _ | ⟨a, _ | ⟨b, _ | ⟨c, rest⟩⟩⟩
      · rfl
      · simp only [List.length_cons, List.length_nil] at hmod; omega
      · simp only [List.length_cons, List.length_nil] at hmod; omega
      · have hmod' : rest.length % 3 = 0 := by
          simp only [List.length_cons] at hmod; omega
        have htail : unpackBytes rest = decodedSteps rest := by
          refine ih rest ?_ hmod'
          simp only [List.length_cons] at hlen; omega
        have hdivlen : (a :: b :: c :: rest).length / 3 = rest.length / 3 + 1 := by
          simp only [List.length_cons]; omega
        unfold decodedSteps
        rw [hdivlen, List.range_succ_eq_map]
        simp only [List.map_cons, List.map_map]
        rw [unpackBytes, htail]
        congr 1
  intro d h
  exact key d.length d (Nat.le_refl _) h

/-! ### Service and characteristic UUIDs (BUDDHA Rev F) -/

def S_DEVICE_INFO : String := "01950010-d6ea-7cc9-9d0b-ab7df1248728"

def S_BATTERY : String := "01950020-d6ea-7cc9-9d0b-ab7df1248728"

def S_TCFG : String := "01950030-d6ea-7cc9-9d0b-ab7df1248728"

def S_TCTRL : String := "01950040-d6ea-7cc9-9d0b-ab7df1248728"

def C_HW_VER : String := "01950011-d6ea-7cc9-9d0b-ab7df1248728"

def C_FW_VER : String := "01950012-d6ea-7cc9-9d0b-ab7df1248728"

def C_BATT_LEVEL : String := "01950021-d6ea-7cc9-9d0b-ab7df1248728"

def C_BATT_AVG_I : String := "01950022-d6ea-7cc9-9d0b-ab7df1248728"

def C_BATT_STATUS : String := "01950023-d6ea-7cc9-9d0b-ab7df1248728"

def C_CHG_CONN : String := "01950024-d6ea-7cc9-9d0b-ab7df1248728"

def C_SHIP_MODE : String := "01950025-d6ea-7cc9-9d0b-ab7df1248728"

def C_STEP_LIST : String := "01950031-d6ea-7cc9-9d0b-ab7df1248728"

def C_CTRL : String := "01950041-d6ea-7cc9-9d0b-ab7df1248728"

def C_TOTAL_MS : String := "01950042-d6ea-7cc9-9d0b-ab7df1248728"

def C_LRA1_EN : String := "01950043-d6ea-7cc9-9d0b-ab7df1248728"

def C_LRA2_EN : String := "01950044-d6ea-7cc9-9d0b-ab7df1248728"

def C_LRA3_EN : String := "01950045-d6ea-7cc9-9d0b-ab7df1248728"

def C_REMAIN_MS : String := "01950046-d6ea-7cc9-9d0b-ab7df1248728"

def C_INTENSITY : String := "01950047-d6ea-7cc9-9d0b-ab7df1248728"

def C_STATUS : String := "01950048-d6ea-7cc9-9d0b-ab7df1248728"

def C_ERROR : String := "01950049-d6ea-7cc9-9d0b-ab7df1248728"

/-! ### Connection session and protocol facade

`BuddhaBleClient` keeps one mutable `device: Device | null` field.  Each
operation is modelled as a function of the current `Option Device`
returning its result together with the list of transport I/O events it
issued.  A connected `Device` is modelled by the bytes each of its
characteristics currently reports. -/

/-- A connected device: the byte payload each characteristic returns
when read. -/
structure Device where
  value : String → String → List Nat

/-- One transport interaction issued through the BLE link. -/
inductive IOEvent where
  | read (service characteristic : String)
  | write (service characteristic : String) (payload : List Char)
  | monitor (service characteristic : String)
  | cancelConnection
deriving DecidableEq, Repr

/-- Result of a facade operation: its value or error, and the I/O events
it issued, in order. -/
abbrev OpResult (α : Type) := Except BleError α × List IOEvent

/-- `requireDev` in the source: throw the not-connected error if `this.device` is null. -/
def requireDev : Option Device → Except BleError Device
  | none => .error .notConnected
  | some d => .ok d

/-- A characteristic read hands back the bytes the device holds in their base64
transport encoding (the `value` of the `Characteristic` object). -/
def characteristicValue (d : Device) (s c : String) : List Char :=
  b64FromBytes (d.value s c)

/-- `readDeviceInfo`: hw/fw words split as `(word >> 8) & 0xFF` /
`word & 0xFF`. -/
def readDeviceInfo (dev : Option Device) : OpResult (Nat × Nat × Nat × Nat) :=
  match requireDev dev with
  | .error e => (.error e, [])
  | .ok d =>
    let hw := readU16 (bytesFromB64 (characteristicValue d S_DEVICE_INFO C_HW_VER))
    let fw := readU16 (bytesFromB64 (characteristicValue d S_DEVICE_INFO C_FW_VER))
    (.ok (hw / 256 % 256, hw % 256, fw / 256 % 256, fw % 256),
      [.read S_DEVICE_INFO C_HW_VER, .read S_DEVICE_INFO C_FW_VER])

/-- `readBattery`: level (u8), average current (i16), charge status and
charger-connected flags (u8). -/
def readBattery (dev : Option Device) : OpResult (Nat × Int × Nat × Nat) :=
  match requireDev dev with
  | .error e => (.error e, [])
  | .ok d =>
    (.ok (readU8 (bytesFromB64 (characteristicValue d S_BATTERY C_BATT_LEVEL)),
          readI16 (bytesFromB64 (characteristicValue d S_BATTERY C_BATT_AVG_I)),
          readU8 (bytesFromB64 (characteristicValue d S_BATTERY C_BATT_STATUS)),
          readU8 (bytesFromB64 (characteristicValue d S_BATTERY C_CHG_CONN))),
      [.read S_BATTERY C_BATT_LEVEL, .read S_BATTERY C_BATT_AVG_I,
        .read S_BATTERY C_BATT_STATUS, .read S_BATTERY C_CHG_CONN])

def subscribeBatteryLevel (dev : Option Device) : OpResult Unit :=
  match requireDev dev with
  | .error e => (.error e, [])
  | .ok _ => (.ok (), [.monitor S_BATTERY C_BATT_LEVEL])

def subscribeChargerStatus (dev : Option Device) : OpResult Unit :=
  match requireDev dev with
  | .error e => (.error e, [])
  | .ok _ => (.ok (), [.monitor S_BATTERY C_CHG_CONN])

def writeShipMode (dev : Option Device) (active : Nat) : OpResult Unit :=
  match requireDev dev with
  | .error e => (.error e, [])
  | .ok _ => (.ok (), [.write S_BATTERY C_SHIP_MODE (b64FromBytes (writeU8 active))])

/-- `readStatus`: status, error code, remaining time, intensity, total
duration. -/
def readStatus (dev : Option Device) : OpResult (Nat × Nat × Nat × Nat × Nat) :=
  match requireDev dev with
  | .error e => (.error e, [])
  | .ok d =>
    (.ok (readU8 (bytesFromB64 (characteristicValue d S_TCTRL C_STATUS)),
          readU16 (bytesFromB64 (characteristicValue d S_TCTRL C_ERROR)),
          readU16 (bytesFromB64 (characteristicValue d S_TCTRL C_REMAIN_MS)),
          readU8 (bytesFromB64 (characteristicValue d S_TCTRL C_INTENSITY)),
          readU16 (bytesFromB64 (characteristicValue d S_TCTRL C_TOTAL_MS))),
      [.read S_TCTRL C_STATUS, .read S_TCTRL C_ERROR, .read S_TCTRL C_REMAIN_MS,
        .read S_TCTRL C_INTENSITY, .read S_TCTRL C_TOTAL_MS])

def writeControl (dev : Option Device) (action : Nat) : OpResult Unit :=
  match requireDev dev with
  | .error e => (.error e, [])
  | .ok _ => (.ok (), [.write S_TCTRL C_CTRL (b64FromBytes (writeU8 action))])

def writeTotalDurationMs (dev : Option Device) (ms : Nat) : OpResult Unit :=
  match requireDev dev with
  | .error e => (.error e, [])
  | .ok _ => (.ok (), [.write S_TCTRL C_TOTAL_MS (b64FromBytes (writeU16 ms))])

def writeIntensity (dev : Option Device) (percent : Nat) : OpResult Unit :=
  match requireDev dev with
  | .error e => (.error e, [])
  | .ok _ => (.ok (), [.write S_TCTRL C_INTENSITY (b64FromBytes (writeU8 percent))])

def subscribeStatus (dev : Option Device) : OpResult Unit :=
  match requireDev dev with
  | .error e => (.error e, [])
  | .ok _ => (.ok (), [.monitor S_TCTRL C_STATUS])

def subscribeRemainingTime (dev : Option Device) : OpResult Unit :=
  match requireDev dev with
  | .error e => (.error e, [])
  | .ok _ => (.ok (), [.monitor S_TCTRL C_REMAIN_MS])

def readRemainingTimeMs (dev : Option Device) : OpResult Nat :=
  match requireDev dev with
  | .error e => (.error e, [])
  | .ok d =>
    (.ok (readU16 (bytesFromB64 (characteristicValue d S_TCTRL C_REMAIN_MS))),
      [.read S_TCTRL C_REMAIN_MS])

def readLraEnables (dev : Option Device) : OpResult (Nat × Nat × Nat) :=
  match requireDev dev with
  | .error e => (.error e, [])
  | .ok d =>
    (.ok (readU8 (bytesFromB64 (characteristicValue d S_TCTRL C_LRA1_EN)),
          readU8 (bytesFromB64 (characteristicValue d S_TCTRL C_LRA2_EN)),
          readU8 (bytesFromB64 (characteristicValue d S_TCTRL C_LRA3_EN))),
      [.read S_TCTRL C_LRA1_EN, .read S_TCTRL C_LRA2_EN, .read S_TCTRL C_LRA3_EN])

/-- The per-actuator flags passed to `writeLraEnables`
(`Partial<\x7b lra1; lra2; lra3 \x7d>`): each is absent or a number. -/
structure LraFlags where
  lra1 : Option Nat := none
  lra2 : Option Nat := none
  lra3 : Option Nat := none
deriving DecidableEq, Repr

/-- One `if (flags.lraN != null) await write(..., valid(flags.lraN))` round
of `writeLraEnables`: `valid` throws unless the value is 0 or 1, and it
runs just before the write belonging to this flag — after the writes of
the previous flags have already been issued (`acc`). -/
def lraStep (chr : String) (flag : Option Nat) (acc : List IOEvent) :
    Except BleError (List IOEvent) :=
  match flag with
  | none => .ok acc
  | some v =>
    if v ≠ 0 ∧ v ≠ 1 then .error (.validationError "LRA flag must be 0 or 1")
    else .ok (acc ++ [.write S_TCTRL chr (b64FromBytes (writeU8 v))])

def writeLraEnables (dev : Option Device) (flags : LraFlags) : OpResult Unit :=
  match requireDev dev with
  | .error _ => (.error .notConnected, [])
  | .ok _ =>
    match lraStep C_LRA1_EN flags.lra1 [] with
    | .error e => (.error e, [])
    | .ok t1 =>
      match lraStep C_LRA2_EN flags.lra2 t1 with
      | .error e => (.error e, t1)
      | .ok t2 =>
        match lraStep C_LRA3_EN flags.lra3 t2 with
        | .error e => (.error e, t2)
        | .ok t3 => (.ok (), t3)

def readSteps (dev : Option Device) : OpResult (List Step) :=
  match requireDev dev with
  | .error e => (.error e, [])
  | .ok d =>
    match unpackStepsFromB64 (some (characteristicValue d S_TCFG C_STEP_LIST)) with
    | .error e => (.error e, [.read S_TCFG C_STEP_LIST])
    | .ok steps => (.ok steps, [.read S_TCFG C_STEP_LIST])

def writeSteps (dev : Option Device) (steps : List Step) : OpResult Unit :=
  match requireDev dev with
  | .error e => (.error e, [])
  | .ok _ =>
    match packStepsToB64 steps with
    | .error e => (.error e, [])
    | .ok payload => (.ok (), [.write S_TCFG C_STEP_LIST payload])

/-- `disconnect`: `if (this.device) { try { await cancelConnection() }
finally { this.device = null } }`.  The outcome the transport reports for
`cancelConnection` is a parameter; the `finally` clears the session on
every exit path and the outcome then propagates.  Returns the new
session, the outcome of the operation, and the I/O issued. -/
def disconnect (dev : Option Device) (cancelOutcome : Except BleError Unit) :
    Option Device × Except BleError Unit × List IOEvent :=
  match dev with
  | none => (none, .ok (), [])
  | some _ => (none, cancelOutcome, [.cancelConnection])

/-! ### Scan filter of `scanAndConnect`

The scan listener fires once per advertisement, in order; the first
device whose name passes `device?.name?.startsWith(namePrefix)` stops the
scan and is connected. -/

def startsWithChars : List Char → List Char → Bool
  | _, [] => true
  | [], _ :: _ => false
  | c :: cs, p :: ps => c == p && startsWithChars cs ps

/-- The advertisement filter: `device?.name?.startsWith(namePrefix)`.
JavaScript `String.prototype.startsWith` compares code units exactly. -/
def nameMatches (nm : Option String) (npfx : String) : Bool :=
  match nm with
  | none => false
  | some n => startsWithChars n.toList npfx.toList

/-- The candidate `scanAndConnect` stops at: the first advertisement
whose name passes the filter. -/
def scanSelect (adverts : List (Option String)) (npfx : String) :
    Option (Option String) :=
  adverts.find? (fun nm => nameMatches nm npfx)

def lowerChar (c : Char) : Char :=
  if 'A' ≤ c ∧ c ≤ 'Z' then Char.ofNat (c.toNat + 32) else c

/-- Modelled from the words of the spec only (for comparison with
`nameMatches` from the code): a case-insensitive is-prefix-of test. -/
def specNameMatchesCI (nm : Option String) (npfx : String) : Bool :=
  match nm with
  | none => false
  | some n => startsWithChars (n.toList.map lowerChar) (npfx.toList.map lowerChar)

/-- A device whose every characteristic currently reports no bytes; used
as a concrete connected session for the write counterexamples, whose
behavior does not depend on stored values. -/
def emptyDevice : Device := ⟨fun _ _ => []⟩

theorem b64FromBytes_ne_nil (a : Nat) (l : List Nat) : b64FromBytes (a :: l) ≠ [] := by
  rcases l with _ | ⟨b, _ | ⟨c, rest⟩⟩ <;> simp [b64FromBytes]

theorem startsWithChars_iff :
    ∀ s p : List Char, startsWithChars s p = true ↔ p <+: s := by
  intro s p
  induction p generalizing s with
  | nil => simp [startsWithChars]
  | cons x ps ih =>
    cases s with
    | nil => simp [startsWithChars]
    | cons c cs =>
      simp only [startsWithChars, Bool.and_eq_true, beq_iff_eq, ih,
        List.cons_prefix_cons]
      tauto

/-! ### The claims -/

/-- C1: for every step list of 1 or more steps whose amplitudes are
integers in [0,100] and durations integers in [1,65535], decoding the
encoding returns the list exactly:
`unpackStepsFromB64 (packStepsToB64 steps) = steps`. -/
theorem c1_step_round_trip (steps : List Step) (hne : steps ≠ [])
    (hok : ∀ s ∈ steps, stepOK s) :
    (packStepsToB64 steps).bind (fun p => unpackStepsFromB64 (some p)) =
      .ok steps := by
  have hpack : packStepsToB64 steps = .ok (b64FromBytes (stepBytes steps)) := by
    unfold packStepsToB64
    rw [if_neg (by simpa using hne), packBytes_ok steps hok]
  rw [hpack]
  show unpackStepsFromB64 (some (b64FromBytes (stepBytes steps))) = .ok steps
  have hbytes : bytesFromB64 (b64FromBytes (stepBytes steps)) = stepBytes steps :=
    bytesFromB64_b64FromBytes _ (stepBytes_lt_256 steps hok)
  have hmod : (stepBytes steps).length % 3 = 0 := by
    rw [stepBytes_length]; omega
  obtain ⟨s0, rest, rfl⟩ : ∃ s0 rest, steps = s0 :: rest := by
    cases steps with
    | nil => exact absurd rfl hne
    | cons a b => exact ⟨a, b, rfl⟩
  have hne2 : b64FromBytes (stepBytes (s0 :: rest)) ≠ [] := b64FromBytes_ne_nil _ _
  simp only [unpackStepsFromB64, hbytes]
  rw [if_neg (by simpa [List.isEmpty_iff] using hne2), if_pos hmod,
    unpackBytes_stepBytes _ hok]

/-- C1 witness at a concrete valid list. -/
theorem c1_step_round_trip_wit :
    (packStepsToB64 [⟨50, 1000⟩, ⟨100, 65535⟩]).bind
        (fun p => unpackStepsFromB64 (some p)) =
      .ok [⟨50, 1000⟩, ⟨100, 65535⟩] :=
  c1_step_round_trip _ (by decide) (by decide)

/-- C5: every facade operation that touches the session checks it first:
with no session present, each fails with exactly the `NotConnected`
error and issues no I/O. -/
theorem c5_not_connected_first :
    readDeviceInfo none = (.error .notConnected, []) ∧
    readBattery none = (.error .notConnected, []) ∧
    readStatus none = (.error .notConnected, []) ∧
    readSteps none = (.error .notConnected, []) ∧
    readRemainingTimeMs none = (.error .notConnected, []) ∧
    readLraEnables none = (.error .notConnected, []) ∧
    (∀ v, writeShipMode none v = (.error .notConnected, [])) ∧
    (∀ v, writeControl none v = (.error .notConnected, [])) ∧
    (∀ v, writeTotalDurationMs none v = (.error .notConnected, [])) ∧
    (∀ v, writeIntensity none v = (.error .notConnected, [])) ∧
    (∀ flags, writeLraEnables none flags = (.error .notConnected, [])) ∧
    (∀ steps, writeSteps none steps = (.error .notConnected, [])) ∧
    subscribeBatteryLevel none = (.error .notConnected, []) ∧
    subscribeChargerStatus none = (.error .notConnected, []) ∧
    subscribeStatus none = (.error .notConnected, []) ∧
    subscribeRemainingTime none = (.error .notConnected, []) :=
  ⟨rfl, rfl, rfl, rfl, rfl, rfl, fun _ => rfl, fun _ => rfl, fun _ => rfl,
    fun _ => rfl, fun _ => rfl, fun _ => rfl, rfl, rfl, rfl, rfl⟩

/-- C8: `disconnect` is idempotent and never raises (and does no I/O) for
an already-disconnected session; with a session it requests link
termination and clears the session on every exit path, whatever outcome
the termination reports. -/
theorem c8_disconnect_idempotent :
    (∀ r, disconnect none r = (none, .ok (), [])) ∧
    (∀ d r, disconnect (some d) r = (none, r, [.cancelConnection])) ∧
    (∀ dev r r2, disconnect (disconnect dev r).1 r2 = (none, .ok (), [])) := by
  refine ⟨fun _ => rfl, fun _ _ => rfl, fun dev r r2 => ?_⟩
  cases dev <;> rfl

/-- C9: the fixed-width decoders are little-endian with twos-complement
sign for i16: `readU16 [0x01, 0x02] = 513`, `readI16 [0xFF, 0xFF] = -1`,
and in general `readI16` subtracts `0x10000` from the u16 value exactly
when it is at least `0x8000`. -/
theorem c9_fixed_width_decoders (b0 b1 : Nat) (h0 : b0 < 256) (h1 : b1 < 256) :
    readU16 [1, 2] = 513 ∧ readI16 [255, 255] = -1 ∧
    readI16 [b0, b1] =
      (if 32768 ≤ b0 + 256 * b1 then ((b0 + 256 * b1 : Nat) : Int) - 65536
       else ((b0 + 256 * b1 : Nat) : Int)) := by
  refine ⟨by decide, by decide, ?_⟩
  unfold readI16
  simp only [List.getD_cons_zero, List.getD_cons_succ]
  split_ifs <;> omega

/-- C9 witness at a concrete negative boundary value. -/
theorem c9_fixed_width_decoders_wit : readI16 [0, 128] = -32768 := by
  have h := (c9_fixed_width_decoders 0 128 (by decide) (by decide)).2.2
  rw [h]
  norm_num

/-- C10: the single-field numeric writers validate nothing: for every
nonnegative integer argument they truncate (u16 mod 65536 little-endian,
u8 mod 256) and write the result. -/
theorem c10_writers_truncate (d : Device) (v : Nat) :
    writeTotalDurationMs (some d) v =
      (.ok (), [.write S_TCTRL C_TOTAL_MS
        (b64FromBytes [v % 65536 % 256, v % 65536 / 256])]) ∧
    writeIntensity (some d) v =
      (.ok (), [.write S_TCTRL C_INTENSITY (b64FromBytes [v % 256])]) ∧
    writeControl (some d) v =
      (.ok (), [.write S_TCTRL C_CTRL (b64FromBytes [v % 256])]) ∧
    writeShipMode (some d) v =
      (.ok (), [.write S_BATTERY C_SHIP_MODE (b64FromBytes [v % 256])]) := by
  refine ⟨?_, ?_, ?_, ?_⟩ <;>
    simp [writeTotalDurationMs, writeIntensity, writeControl, writeShipMode,
      requireDev, writeU16_eq, writeU8_eq]

/-- C2 (counterexample): with a session present, writing 70000 to
`totalDurationMs` does not fail with `ValidationError`: it succeeds and
a write (of the truncated value 4464 = 0x1170, bytes `[0x70, 0x11]`)
reaches the transport. -/
theorem c2_write_70000_counterexample :
    writeTotalDurationMs (some emptyDevice) 70000 =
      (.ok (), [.write S_TCTRL C_TOTAL_MS (b64FromBytes [112, 17])]) := by
  rfl

/-- C2 (amended): `writeTotalDurationMs(70000)` performs no validation:
for every connected session it succeeds and writes the little-endian
encoding of `70000 mod 65536 = 4464`, bytes `[112, 17]`. -/
theorem c2_write_70000_truncates (d : Device) :
    writeTotalDurationMs (some d) 70000 =
      (.ok (), [.write S_TCTRL C_TOTAL_MS (b64FromBytes [112, 17])]) := by
  simp [writeTotalDurationMs, requireDev, writeU16_eq]

/-- C3 (counterexample): `writeLraEnables` with a valid `lra1 = 1` and an
invalid `lra2 = 5` fails with `ValidationError`, but the `lra1` write has
already been issued to the transport — the supplied values are not all
validated before dispatching. -/
theorem c3_partial_write_counterexample :
    writeLraEnables (some emptyDevice) ⟨some 1, some 5, none⟩ =
      (.error (.validationError "LRA flag must be 0 or 1"),
        [.write S_TCTRL C_LRA1_EN (b64FromBytes [1])]) := by
  rfl

/-- The flag/characteristic pairs `writeLraEnables` processes, in order. -/
def lraPlan (flags : LraFlags) : List (Nat × String) :=
  (match flags.lra1 with | some v => [(v, C_LRA1_EN)] | none => []) ++
    (match flags.lra2 with | some v => [(v, C_LRA2_EN)] | none => []) ++
    (match flags.lra3 with | some v => [(v, C_LRA3_EN)] | none => [])

def lraValid (v : Nat) : Bool := v == 0 || v == 1

/-- C3 (amended): `writeLraEnables` validates each supplied flag
immediately before the write belonging to that flag: the writes issued are exactly
those for the longest valid initial segment of the supplied flags, the
call succeeds exactly when every supplied flag is valid, and an invalid
flag aborts its own and all later writes while earlier writes stand. -/
theorem c3_lra_validation_order (d : Device) (flags : LraFlags) :
    writeLraEnables (some d) flags =
      ((if (lraPlan flags).all (fun p => lraValid p.1) then .ok ()
        else .error (.validationError "LRA flag must be 0 or 1")),
       ((lraPlan flags).takeWhile (fun p => lraValid p.1)).map
         (fun p => .write S_TCTRL p.2 (b64FromBytes (writeU8 p.1)))) := by
  obtain ⟨o1, o2, o3⟩ := flags
  cases o1 <;> cases o2 <;> cases o3 <;>
    simp only [writeLraEnables, requireDev, lraStep, lraPlan, lraValid,
      List.append_nil, List.nil_append, List.cons_append, List.all_cons,
      List.all_nil, List.takeWhile_cons, List.takeWhile_nil, Bool.and_true,
      List.map_cons, List.map_nil] <;>
    split_ifs <;>
    simp_all

/-- C4 (counterexample): a name differing from the prefix only in letter
case (`"budd"` vs `"BUDD"`) matches under the case-insensitive test of
the spec but is rejected by the filter in the code, so scanning does not stop on
it. -/
theorem c4_case_counterexample :
    specNameMatchesCI (some "budd") "BUDD" = true ∧
    nameMatches (some "budd") "BUDD" = false ∧
    scanSelect [some "budd"] "BUDD" = none := by
  decide

/-- C4 (amended): the advertised-name filter of `scanAndConnect` is a
case-SENSITIVE is-prefix-of test: a name matches exactly when the prefix
is literally a prefix of it; scanning stops at the first advertisement
that matches, selects only matching candidates, and finds none exactly
when no advertisement matches. -/
theorem c4_scan_filter_case_sensitive :
    (∀ n npfx : String, nameMatches (some n) npfx = true ↔ npfx.toList <+: n.toList) ∧
    (∀ a adverts npfx, scanSelect (a :: adverts) npfx =
      (if nameMatches a npfx = true then some a else scanSelect adverts npfx)) ∧
    (∀ adverts npfx nm, scanSelect adverts npfx = some nm →
      nameMatches nm npfx = true) ∧
    (∀ adverts npfx, scanSelect adverts npfx = none ↔
      ∀ nm ∈ adverts, nameMatches nm npfx = false) := by
  refine ⟨?_, ?_, ?_, ?_⟩
  · intro n npfx
    exact startsWithChars_iff n.toList npfx.toList
  · intro a adverts npfx
    simp [scanSelect, List.find?_cons]
    split_ifs with h <;> simp_all
  · intro adverts npfx nm h
    have h2 : List.find? (fun x => nameMatches x npfx) adverts = some nm := h
    simpa using List.find?_some h2
  · intro adverts npfx
    rw [scanSelect, List.find?_eq_none]
    constructor
    · intro h nm hm
      simpa using h nm hm
    · intro h nm hm
      simp [h nm hm]

/-- C4 witness: the case-sensitive characterization applied at a concrete
matching advertisement. -/
theorem c4_scan_filter_case_sensitive_wit :
    nameMatches (some "BUDDHA-01") "BUDD" = true :=
  (c4_scan_filter_case_sensitive.1 "BUDDHA-01" "BUDD").mpr (by decide)

/-- C6: `packStepsToB64` fails with `ValidationError` exactly when the
list is empty or some step is out of bounds; on every valid input it
produces 3 bytes per step and applies the base64 transport encoding. -/
theorem c6_encode_steps_validation (steps : List Step) :
    ((∃ msg, packStepsToB64 steps = .error (.validationError msg)) ↔
      (steps = [] ∨ ∃ s ∈ steps, ¬ stepOK s)) ∧
    (steps ≠ [] → (∀ s ∈ steps, stepOK s) →
      packStepsToB64 steps = .ok (b64FromBytes (stepBytes steps)) ∧
      (stepBytes steps).length = 3 * steps.length) := by
  constructor
  · cases steps with
    | nil =>
      constructor
      · intro _
        exact Or.inl rfl
      · intro _
        exact ⟨"steps required", rfl⟩
    | cons s rest =>
      unfold packStepsToB64
      rw [if_neg (by simp)]
      constructor
      · rintro ⟨msg, hmsg⟩
        cases hpb : packBytes (s :: rest) with
        | ok bs =>
          rw [hpb] at hmsg
          exact Except.noConfusion hmsg
        | error e =>
          rw [hpb] at hmsg
          have he : e = .validationError msg := by
            simpa using hmsg
          exact Or.inr ((packBytes_error_iff (s :: rest)).mp ⟨msg, he ▸ hpb⟩)
      · intro h
        rcases h with h | h
        · exact absurd h (by simp)
        · obtain ⟨msg, hp⟩ := packBytes_error_of_invalid (s :: rest) h
          exact ⟨msg, by rw [hp]⟩
  · intro hne hok
    refine ⟨?_, stepBytes_length steps⟩
    unfold packStepsToB64
    rw [if_neg (by simpa using hne), packBytes_ok steps hok]

/-- C6 witness at a concrete valid singleton list. -/
theorem c6_encode_steps_validation_wit :
    packStepsToB64 [⟨50, 1000⟩] = .ok (b64FromBytes (stepBytes [⟨50, 1000⟩])) ∧
    (stepBytes [⟨50, 1000⟩]).length = 3 * [(⟨50, 1000⟩ : Step)].length :=
  (c6_encode_steps_validation [⟨50, 1000⟩]).2 (by decide) (by decide)

/-- C7: a null/absent payload decodes to the empty step list; a payload
whose decoded byte length is not a multiple of 3 fails with
`ProtocolError` (malformed payload); otherwise every 3-byte group
`[amp, lo, hi]` becomes the step `{ amplitudePct = amp,
durationMs = lo + 256 * hi }`. -/
theorem c7_decode_steps_spec :
    unpackStepsFromB64 none = .ok [] ∧
    (∀ p : List Char, (bytesFromB64 p).length % 3 = 0 →
      unpackStepsFromB64 (some p) = .ok (decodedSteps (bytesFromB64 p))) ∧
    (∀ p : List Char, (bytesFromB64 p).length % 3 ≠ 0 →
      unpackStepsFromB64 (some p) =
        .error (.protocolError "Malformed step list payload (not multiple of 3)")) := by
  refine ⟨rfl, ?_, ?_⟩
  · intro p hp
    by_cases hemp : p.isEmpty
    · have : p = [] := List.isEmpty_iff.mp hemp
      subst this
      rfl
    · simp only [unpackStepsFromB64]
      rw [if_neg hemp, if_pos hp, unpackBytes_eq_decodedSteps _ hp]
  · intro p hp
    have hemp : ¬ p.isEmpty = true := by
      intro h
      have : p = [] := List.isEmpty_iff.mp h
      subst this
      exact hp (by rfl)
    simp only [unpackStepsFromB64]
    rw [if_neg hemp, if_neg hp]

/-- C7 witness at a concrete malformed payload (decodes to one byte). -/
theorem c7_decode_steps_spec_wit :
    unpackStepsFromB64 (some ['A', 'A']) =
      .error (.protocolError "Malformed step list payload (not multiple of 3)") :=
  c7_decode_steps_spec.2.2 ['A', 'A'] (by decide)

end BuddhaBle
